import Mathlib

/-!
Shallow embedding of `amount.go` from the btcutil repository.

Go `float64` values are modelled in an idealized way: a float is either NaN,
one of the two infinities, or an exact rational number, and arithmetic on the
finite values is exact rational arithmetic.  Go's conversion from `float64` to
`int64` truncates toward zero, which on rationals is floor for non-negative
arguments and ceiling for negative ones.  `Amount` (`int64` in Go) and
`AmountUnit` (`int` in Go) are modelled as unbounded integers; none of the
claims exercises two's-complement overflow.
-/

namespace Btcutil

/-- Idealized model of Go `float64`: NaN, the two infinities, or an exact
rational value. -/
inductive Float64 where
  | nan : Float64
  | posInf : Float64
  | negInf : Float64
  | finite : ℚ → Float64
deriving DecidableEq

/-- Go conversion of a (finite) `float64` to an integer type: truncation
toward zero. -/
def truncQ (q : ℚ) : ℤ :=
  if 0 ≤ q then ⌊q⌋ else ⌈q⌉

/-- `Amount` represents the base monetary unit (a `Hao`), an `int64` in Go. -/
abbrev Amount := ℤ

/-- `AmountUnit` is the exponent component of the decadic multiple, an `int`
in Go. -/
abbrev AmountUnit := ℤ

def AmountMegaOMC : AmountUnit := 6
def AmountKiloOMC : AmountUnit := 3
def AmountOMC : AmountUnit := 0
def AmountMilliOMC : AmountUnit := -3
def AmountMicroOMC : AmountUnit := -6
def AmountHao : AmountUnit := -8

/-- `round` from `amount.go`: add or subtract 0.5 depending on the sign and
rely on integer truncation. -/
def round (f : ℚ) : Amount :=
  if f < 0 then truncQ (f - 0.5) else truncQ (f + 0.5)

/-- Modelled from the spec: the units-per-coin constant `HaoPerBitcoin` is
referenced by `NewAmount` but defined in a file of this repository that is not
under `src/`; the spec fixes the display-unit conversion factor at `10^8`. -/
def HaoPerBitcoin : ℚ := 100000000

/-- `NewAmount` from `amount.go`: errors on NaN and the two infinities,
otherwise multiplies by `HaoPerBitcoin` when `tokentype` is zero and rounds. -/
def NewAmount (f : Float64) (tokentype : ℕ) : Except String Amount :=
  match f with
  | .nan => .error "invalid bitcoin amount"
  | .posInf => .error "invalid bitcoin amount"
  | .negInf => .error "invalid bitcoin amount"
  | .finite q =>
    if tokentype = 0 then .ok (round (q * HaoPerBitcoin))
    else .ok (round q)

/-- Idealized model of Go `math.Pow10`: exact `10^n` over the rationals. -/
def pow10 (n : ℤ) : ℚ := (10 : ℚ) ^ n

/-- `Amount.ToUnit` from `amount.go`: `float64(a) / math.Pow10(int(u+8))`. -/
def Amount.ToUnit (a : Amount) (u : AmountUnit) : ℚ :=
  (a : ℚ) / pow10 (u + 8)

/-- `Amount.ToOMC` from `amount.go`: `ToUnit` at `AmountOMC`. -/
def Amount.ToOMC (a : Amount) : ℚ :=
  Amount.ToUnit a AmountOMC

/-- `Amount.MulF64` from `amount.go`: `round(float64(a) * f)`. -/
def Amount.MulF64 (a : Amount) (f : ℚ) : Amount :=
  round ((a : ℚ) * f)

instance {ε α : Type} [DecidableEq ε] [DecidableEq α] : DecidableEq (Except ε α) :=
  fun a b =>
    match a, b with
    | .error e, .error f =>
      if h : e = f then isTrue (by rw [h])
      else isFalse (fun hh => h (Except.error.inj hh))
    | .ok x, .ok y =>
      if h : x = y then isTrue (by rw [h])
      else isFalse (fun hh => h (Except.ok.inj hh))
    | .error _, .ok _ => isFalse (fun hh => Except.noConfusion hh)
    | .ok _, .error _ => isFalse (fun hh => Except.noConfusion hh)

/-- Decimal digits of `n`, most significant first, produced by the usual
divide-by-ten loop (fuel-indexed; any fuel above the digit count of `n` is
enough). -/
def natChars : ℕ → ℕ → List Char
  | 0, _ => []
  | fuel + 1, n =>
    if n < 10 then [Nat.digitChar n]
    else natChars fuel (n / 10) ++ [Nat.digitChar (n % 10)]

/-- Decimal string of a natural number. -/
def natStr (n : ℕ) : String := ⟨natChars (n + 1) n⟩

/-- Model of Go `strconv.FormatInt(i, 10)`. -/
def intStr (i : ℤ) : String :=
  if i < 0 then ⟨'-' :: natChars (i.natAbs + 1) i.natAbs⟩ else natStr i.toNat

/-- `AmountUnit.String` from `amount.go`: SI-style labels for the recognized
exponents, `"1eN OMC"` otherwise. -/
def AmountUnit.string (u : AmountUnit) : String :=
  if u = AmountMegaOMC then "MOMC"
  else if u = AmountKiloOMC then "kOMC"
  else if u = AmountOMC then "OMC"
  else if u = AmountMilliOMC then "mOMC"
  else if u = AmountMicroOMC then "μOMC"
  else if u = AmountHao then "Hao"
  else "1e" ++ intStr u ++ " OMC"

/-- The exactly `k` low decimal digits of `m` (that is, of `m mod 10^k`),
most significant first, with leading zeros kept. -/
def padDigits : ℕ → ℕ → List Char
  | 0, _ => []
  | k + 1, m => padDigits k (m / 10) ++ [Nat.digitChar (m % 10)]

/-- `|q| * 10^prec` rounded to the nearest integer, ties to the even digit, as
Go's `strconv` decimal rounding does when printing with a fixed precision. -/
def fixedRoundAbs (q : ℚ) (prec : ℕ) : ℕ :=
  let s := |q| * 10 ^ prec
  let fl := ⌊s⌋
  let r : ℤ :=
    if s - fl < 1 / 2 then fl
    else if 1 / 2 < s - fl then fl + 1
    else if fl % 2 = 0 then fl else fl + 1
  r.toNat

/-- Leading minus sign of a rendered float, as a character list. -/
def signChars (q : ℚ) : List Char :=
  if q < 0 then ['-'] else []

/-- Fixed-point decimal rendering with exactly `prec` digits after the point
(no point at all when `prec = 0`), as Go's `strconv.FormatFloat` with format
byte `'f'` and a non-negative precision produces. -/
def formatFixed (q : ℚ) (prec : ℕ) : String :=
  if prec = 0 then
    ⟨signChars q ++ natChars (fixedRoundAbs q prec + 1) (fixedRoundAbs q prec)⟩
  else
    ⟨signChars q ++
      natChars (fixedRoundAbs q prec / 10 ^ prec + 1) (fixedRoundAbs q prec / 10 ^ prec) ++
      '.' :: padDigits prec (fixedRoundAbs q prec)⟩

/-- Smallest `k` (up to the fuel) such that `q * 10^k` is an integer. -/
def minDecExpAux : ℕ → ℚ → ℕ → ℕ
  | 0, _, k => k
  | fuel + 1, q, k =>
    if (q * 10 ^ k).den = 1 then k else minDecExpAux fuel q (k + 1)

/-- Idealized model of Go's shortest `'f'` formatting (`FormatFloat` with a
negative precision): print the fewest digits after the point that render the
value exactly.  In the rational model this is the minimal decimal exponent of
the value. -/
def formatShortest (q : ℚ) : String :=
  formatFixed q (minDecExpAux 400 q 0)

/-- Model of Go `strconv.FormatFloat(q, 'f', prec, 64)`: Go treats every
negative precision as a request for the shortest representation. -/
def formatFloatF (q : ℚ) (prec : ℤ) : String :=
  if prec < 0 then formatShortest q else formatFixed q prec.toNat

/-- `Amount.Format` from `amount.go`:
`strconv.FormatFloat(a.ToUnit(u), 'f', -int(u+8), 64) + " " + u.String()`. -/
def Amount.Format (a : Amount) (u : AmountUnit) : String :=
  formatFloatF (Amount.ToUnit a u) (-(u + 8)) ++ " " ++ AmountUnit.string u

/-- `Amount.String` from `amount.go`: `Format` at `AmountOMC`. -/
def Amount.String (a : Amount) : String :=
  Amount.Format a AmountOMC

/-- Number of characters after the last `'.'` of a string (`0` when the string
has no `'.'`). -/
def fracCount (s : String) : ℕ :=
  if '.' ∈ s.data then (s.data.reverse.takeWhile (fun c => c != '.')).length else 0

/-! ## Helper lemmas -/

/-- Truncation toward zero expressed through floor and ceiling: `round` adds
or subtracts the half and the truncation it relies on is a floor on the
non-negative side and a ceiling on the negative side. -/
lemma round_ceil_floor (f : ℚ) :
    round f = (if f < 0 then ⌈f - 0.5⌉ else ⌊f + 0.5⌋) := by
  by_cases h : f < 0
  · have h2 : ¬ (0 ≤ f - 0.5) := by push_neg; linarith
    simp [round, truncQ, h, h2]
  · have h2 : (0 : ℚ) ≤ f + 0.5 := by push_neg at h; linarith
    simp [round, truncQ, h, h2]

/-- `round` is the identity on integers. -/
lemma round_intCast (n : ℤ) : round (n : ℚ) = n := by
  rw [round_ceil_floor]
  by_cases h : (n : ℚ) < 0
  · rw [if_pos h, Int.ceil_eq_iff (z := n)]
    constructor <;> [push_cast; push_cast] <;> linarith
  · rw [if_neg h, Int.floor_eq_iff (z := n)]
    constructor <;> [push_cast; push_cast] <;> linarith

/-- The first sixteen digit characters are not a decimal point. -/
lemma digitChar_lt_ne_dot : ∀ m < 10, Nat.digitChar m ≠ '.' := by decide

/-- `Nat.digitChar` of a residue modulo ten is never a decimal point. -/
lemma digitChar_mod_ne_dot (m : ℕ) : Nat.digitChar (m % 10) ≠ '.' :=
  digitChar_lt_ne_dot _ (Nat.mod_lt _ (by norm_num))

/-- The digit strings produced by `natChars` contain no decimal point. -/
lemma natChars_ne_dot : ∀ fuel n, '.' ∉ natChars fuel n := by
  intro fuel
  induction fuel with
  | zero => intro n; simp [natChars]
  | succ fuel ih =>
    intro n
    by_cases h : n < 10
    · simp only [natChars, if_pos h, List.mem_singleton]
      exact fun hh => digitChar_lt_ne_dot n h hh.symm
    · simp only [natChars, if_neg h, List.mem_append, List.mem_singleton]
      rintro (hmem | hh)
      · exact ih _ hmem
      · exact digitChar_mod_ne_dot n hh.symm

/-- `padDigits k m` has exactly `k` characters. -/
lemma padDigits_length : ∀ k m, (padDigits k m).length = k := by
  intro k
  induction k with
  | zero => intro m; rfl
  | succ k ih => intro m; simp [padDigits, ih]

/-- The padded digit lists contain no decimal point. -/
lemma padDigits_ne_dot : ∀ k m, '.' ∉ padDigits k m := by
  intro k
  induction k with
  | zero => intro m; simp [padDigits]
  | succ k ih =>
    intro m
    simp only [padDigits, List.mem_append, List.mem_singleton]
    rintro (hmem | hh)
    · exact ih _ hmem
    · exact digitChar_mod_ne_dot m hh.symm

/-- The sign characters contain no decimal point. -/
lemma signChars_ne_dot (q : ℚ) : '.' ∉ signChars q := by
  unfold signChars
  split <;> simp

/-- Taking characters up to the first decimal point from `l ++ '.' :: rest`
yields exactly `l` when `l` itself is dot-free. -/
lemma takeWhile_to_dot (l rest : List Char) (hl : '.' ∉ l) :
    (l ++ '.' :: rest).takeWhile (fun c => c != '.') = l := by
  induction l with
  | nil => simp [List.takeWhile]
  | cons c l ih =>
    have hc : (c != '.') = true := by
      have hne : c ≠ '.' := fun h => hl (by simp [h])
      simpa using hne
    have hl' : '.' ∉ l := fun h => hl (List.mem_cons_of_mem _ h)
    simp [List.takeWhile, hc, ih hl']

/-- A string of the shape `A ++ '.' :: P` with a dot-free tail `P` has exactly
`P.length` characters after its last decimal point. -/
lemma fracCount_of_split (A P : List Char) (hP : '.' ∉ P) :
    fracCount ⟨A ++ '.' :: P⟩ = P.length := by
  unfold fracCount
  have hmem : '.' ∈ A ++ '.' :: P := by simp
  rw [if_pos hmem]
  have hrev : (A ++ '.' :: P).reverse = P.reverse ++ '.' :: A.reverse := by
    simp [List.reverse_append, List.reverse_cons, List.append_assoc]
  rw [hrev, takeWhile_to_dot _ _ (by simpa using hP)]
  simp

/-- A dot-free string has zero characters after its last decimal point. -/
lemma fracCount_no_dot (L : List Char) (h : '.' ∉ L) : fracCount ⟨L⟩ = 0 := by
  unfold fracCount
  rw [if_neg h]

/-- The fixed-precision rendering prints exactly `prec` digits after the
decimal point. -/
lemma fracCount_formatFixed (q : ℚ) (prec : ℕ) :
    fracCount (formatFixed q prec) = prec := by
  cases prec with
  | zero =>
    rw [formatFixed, if_pos rfl]
    apply fracCount_no_dot
    intro h
    rcases List.mem_append.mp h with h | h
    · exact signChars_ne_dot q h
    · exact natChars_ne_dot _ _ h
  | succ k =>
    rw [formatFixed, if_neg (Nat.succ_ne_zero k)]
    rw [show signChars q ++
          natChars (fixedRoundAbs q (k + 1) / 10 ^ (k + 1) + 1)
            (fixedRoundAbs q (k + 1) / 10 ^ (k + 1)) ++
          '.' :: padDigits (k + 1) (fixedRoundAbs q (k + 1)) =
        (signChars q ++
          natChars (fixedRoundAbs q (k + 1) / 10 ^ (k + 1) + 1)
            (fixedRoundAbs q (k + 1) / 10 ^ (k + 1))) ++
          '.' :: padDigits (k + 1) (fixedRoundAbs q (k + 1)) from by
      simp [List.append_assoc]]
    rw [fracCount_of_split _ _ (padDigits_ne_dot _ _)]
    exact padDigits_length _ _

/-- One hundred million smallest units convert to exactly one display coin. -/
lemma toUnit_1e8_omc : Amount.ToUnit 100000000 AmountOMC = 1 := by
  norm_num [Amount.ToUnit, pow10, AmountOMC]

/-- The shortest-exponent search stops immediately on an integral value. -/
lemma minDecExpAux_den_one (fuel : ℕ) (q : ℚ) (k : ℕ)
    (h : (q * 10 ^ k).den = 1) :
    minDecExpAux (fuel + 1) q k = k := by
  rw [minDecExpAux.eq_2, if_pos h]

/-- The shortest rendering of the rational `1` is the single character `1`. -/
lemma formatShortest_one : formatShortest 1 = "1" := by
  unfold formatShortest
  rw [show minDecExpAux 400 1 0 = 0 from minDecExpAux_den_one 399 1 0 (by norm_num)]
  unfold formatFixed
  rw [if_pos rfl]
  rw [show fixedRoundAbs 1 0 = 1 from by norm_num [fixedRoundAbs]]
  rw [show signChars (1 : ℚ) = [] from by norm_num [signChars]]
  decide

/-- Evaluation of `Amount.String` at one whole coin. -/
lemma amountString_1e8 : Amount.String 100000000 = "1 OMC" := by
  unfold Amount.String Amount.Format
  rw [toUnit_1e8_omc]
  unfold formatFloatF
  rw [if_pos (show (-(AmountOMC + 8) : ℤ) < 0 from by norm_num [AmountOMC])]
  rw [formatShortest_one]
  decide

/-! ## Claim theorems -/

/-- C1: the rounding function used by construction and multiplication rounds
half away from zero: for negative `f` it returns the truncation toward zero of
`f - 0.5`, and for non-negative `f` the truncation toward zero of `f + 0.5`
(equivalently a ceiling on the negative side and a floor on the non-negative
side, since the shifted argument keeps the sign of `f`). -/
theorem round_half_away_from_zero :
    ∀ f : ℚ,
      round f = (if f < 0 then truncQ (f - 0.5) else truncQ (f + 0.5)) ∧
      round f = (if f < 0 then ⌈f - 0.5⌉ else ⌊f + 0.5⌋) :=
  fun f => ⟨rfl, round_ceil_floor f⟩

/-- C2: `NewAmount` returns the invalid-amount error exactly on NaN and the
two infinities, and returns a non-error result on every finite input, for
every `tokentype`. -/
theorem newAmount_error_iff_nonfinite :
    (∀ (f : Float64) (t : ℕ),
        (∃ e, NewAmount f t = .error e) ↔
          f = .nan ∨ f = .posInf ∨ f = .negInf) ∧
    (∀ (q : ℚ) (t : ℕ), ∃ a, NewAmount (.finite q) t = .ok a) := by
  constructor
  · intro f t
    cases f <;> simp [NewAmount]
    case finite q => by_cases h : t = 0 <;> simp [h]
  · intro q t
    by_cases h : t = 0 <;> simp [NewAmount, h]

/-- C3: constructing from `1.0` in the display coin unit yields the Amount
`100000000`; constructing from `1.0` with a nonzero `tokentype` yields `1`;
and in the display-unit case the input is multiplied by `10^8` before
rounding. -/
theorem newAmount_one_scaling :
    NewAmount (.finite 1) 0 = .ok 100000000 ∧
    (∀ t : ℕ, t ≠ 0 → NewAmount (.finite 1) t = .ok 1) ∧
    (∀ q : ℚ, NewAmount (.finite q) 0 = .ok (round (q * 10 ^ 8))) := by
  refine ⟨?_, ?_, ?_⟩
  · have h : NewAmount (.finite 1) 0 = .ok (round (1 * HaoPerBitcoin)) := rfl
    rw [h]
    norm_num [HaoPerBitcoin, round, truncQ]
  · intro t ht
    simp only [NewAmount, if_neg ht]
    norm_num [round, truncQ]
  · intro q
    have h : HaoPerBitcoin = 10 ^ 8 := by norm_num [HaoPerBitcoin]
    simp [NewAmount, h]

theorem newAmount_one_scaling_witness :
    (5 : ℕ) ≠ 0 ∧ NewAmount (.finite 1) 5 = .ok 1 :=
  ⟨by decide, newAmount_one_scaling.2.1 5 (by decide)⟩

/-- C4: `ToUnit` returns the value divided by `10^(u+8)` for every amount and
every integer exponent, with no error path (the function is total). -/
theorem toUnit_div_pow :
    ∀ (a : Amount) (u : AmountUnit),
      Amount.ToUnit a u = (a : ℚ) / (10 : ℚ) ^ (u + 8) :=
  fun _ _ => rfl

/-- C5 counterexample: the claimed digit rule fails at `u = 0`, where
`-(u+8) = -8` but the rendered numeric part of `Amount.Format 100000000 0`
is `"1"`, which has `0` digits after the decimal point (no string can have a
negative count). -/
theorem format_digit_rule_cex :
    Amount.Format 100000000 0 = "1" ++ " " ++ AmountUnit.string 0 ∧
    ¬ ∃ num : String,
        Amount.Format 100000000 0 = num ++ " " ++ AmountUnit.string 0 ∧
        (fracCount num : ℤ) = -((0 : ℤ) + 8) := by
  constructor
  · rw [show Amount.Format 100000000 0 = Amount.String 100000000 from rfl,
      amountString_1e8]
    decide
  · rintro ⟨num, -, h⟩
    omega

/-- C5 (amended): for `u ≤ -8` the precision argument `-(u+8)` is
non-negative and `Format` renders `ToUnit u` as a fixed-point decimal string
with exactly `-(u+8)` digits after the decimal point, followed by a space and
the unit's label; for `u > -8` Go's `FormatFloat` receives a negative
precision and produces the shortest representation instead, so that
`Amount.String 100000000` (exponent `0`) is `"1 OMC"`. -/
theorem format_digit_rule :
    (∀ (a : Amount) (u : AmountUnit), u ≤ -8 →
      ∃ num : String,
        num = formatFixed (Amount.ToUnit a u) (-(u + 8)).toNat ∧
        Amount.Format a u = num ++ " " ++ AmountUnit.string u ∧
        fracCount num = (-(u + 8)).toNat) ∧
    Amount.String 100000000 = "1 OMC" := by
  constructor
  · intro a u hu
    refine ⟨formatFixed (Amount.ToUnit a u) (-(u + 8)).toNat, rfl, ?_,
      fracCount_formatFixed _ _⟩
    have hnn : ¬ (-(u + 8) : ℤ) < 0 := by
      intro hlt
      linarith
    unfold Amount.Format formatFloatF
    rw [if_neg hnn]
  · exact amountString_1e8

theorem format_digit_rule_witness :
    ((-9 : ℤ) ≤ -8) ∧
    ∃ num : String,
      num = formatFixed (Amount.ToUnit 5 (-9)) ((-((-9) + 8) : ℤ)).toNat ∧
      Amount.Format 5 (-9) = num ++ " " ++ AmountUnit.string (-9) ∧
      fracCount num = ((-((-9) + 8) : ℤ)).toNat :=
  ⟨by decide, format_digit_rule.1 5 (-9) (by decide)⟩

/-- C6: the unit-label function is total; it returns the named label at each
of the six recognized exponents and the generic `"1eN OMC"` string at every
other integer. -/
theorem amountUnit_label_total :
    AmountUnit.string 6 = "MOMC" ∧ AmountUnit.string 3 = "kOMC" ∧
    AmountUnit.string 0 = "OMC" ∧ AmountUnit.string (-3) = "mOMC" ∧
    AmountUnit.string (-6) = "μOMC" ∧ AmountUnit.string (-8) = "Hao" ∧
    AmountUnit.string 2 = "1e2 OMC" ∧
    (∀ n : AmountUnit, n ≠ 6 → n ≠ 3 → n ≠ 0 → n ≠ -3 → n ≠ -6 → n ≠ -8 →
      AmountUnit.string n = "1e" ++ intStr n ++ " OMC") := by
  refine ⟨by decide, by decide, by decide, by decide, by decide, by decide,
    by decide, ?_⟩
  intro n h6 h3 h0 hm3 hm6 hm8
  simp [AmountUnit.string, AmountMegaOMC, AmountKiloOMC, AmountOMC,
    AmountMilliOMC, AmountMicroOMC, AmountHao, h6, h3, h0, hm3, hm6, hm8]

theorem amountUnit_label_total_witness :
    AmountUnit.string 5 = "1e" ++ intStr 5 ++ " OMC" :=
  amountUnit_label_total.2.2.2.2.2.2.2 5 (by decide) (by decide) (by decide)
    (by decide) (by decide) (by decide)

/-- C7: `MulF64` is `round (float64(a) * f)` under the same
half-away-from-zero rounding rule as construction, is total, and
`Amount(1000).MulF64(0.5) = 500`. -/
theorem mulF64_rounds_product :
    (∀ (a : Amount) (f : ℚ),
        Amount.MulF64 a f = round ((a : ℚ) * f) ∧
        Amount.MulF64 a f =
          (if (a : ℚ) * f < 0 then ⌈(a : ℚ) * f - 0.5⌉
           else ⌊(a : ℚ) * f + 0.5⌋)) ∧
    Amount.MulF64 1000 0.5 = 500 :=
  ⟨fun a f => ⟨rfl, round_ceil_floor ((a : ℚ) * f)⟩,
    by norm_num [Amount.MulF64, round, truncQ]⟩

/-- C8: at display-unit input `0.123456785` the scaled value is exactly
`12345678.5`, which rounds half away from zero to `12345679`; the negated
input rounds to `-12345679`. -/
theorem newAmount_half_tie_example :
    (0.123456785 : ℚ) * HaoPerBitcoin = 12345678.5 ∧
    NewAmount (.finite 0.123456785) 0 = .ok 12345679 ∧
    NewAmount (.finite (-0.123456785)) 0 = .ok (-12345679) :=
  ⟨by norm_num [HaoPerBitcoin],
    by norm_num [NewAmount, HaoPerBitcoin, round, truncQ],
    by norm_num [NewAmount, HaoPerBitcoin, round, truncQ, Int.ceil_neg]⟩

/-- C9: converting an amount to the display coin unit with `ToOMC` and
constructing back with `NewAmount (·, 0)` recovers the amount exactly, for
every integer of reasonable magnitude. -/
theorem toOMC_roundtrip :
    ∀ n : ℤ, |n| ≤ 10 ^ 15 →
      NewAmount (.finite (Amount.ToOMC n)) 0 = .ok n := by
  intro n _
  have h0 : NewAmount (.finite (Amount.ToOMC n)) 0 =
      .ok (round (Amount.ToOMC n * HaoPerBitcoin)) := rfl
  have hpow : pow10 (AmountOMC + 8) = 10 ^ 8 := by
    norm_num [pow10, AmountOMC]
  have hmul : Amount.ToOMC n * HaoPerBitcoin = (n : ℚ) := by
    rw [Amount.ToOMC, Amount.ToUnit, hpow,
      show HaoPerBitcoin = (10 : ℚ) ^ 8 from by norm_num [HaoPerBitcoin]]
    field_simp
  rw [h0, hmul, round_intCast]

theorem toOMC_roundtrip_witness :
    |(123456789 : ℤ)| ≤ 10 ^ 15 ∧
    NewAmount (.finite (Amount.ToOMC 123456789)) 0 = .ok 123456789 :=
  ⟨by norm_num, toOMC_roundtrip 123456789 (by norm_num)⟩

/-- C10: `NewAmount` depends on `tokentype` only through whether it is zero:
any two nonzero token types give the same result on every input, and on a
finite input with nonzero token type the result is exactly `round f`, with no
multiplication by the units-per-coin factor. -/
theorem newAmount_tokentype_zero_test :
    (∀ (f : Float64) (t1 t2 : ℕ), t1 ≠ 0 → t2 ≠ 0 →
      NewAmount f t1 = NewAmount f t2) ∧
    (∀ (q : ℚ) (t : ℕ), t ≠ 0 →
      NewAmount (.finite q) t = .ok (round q)) := by
  constructor
  · intro f t1 t2 h1 h2
    cases f <;> simp [NewAmount, h1, h2]
  · intro q t ht
    simp [NewAmount, ht]

theorem newAmount_tokentype_zero_test_witness :
    (1 : ℕ) ≠ 0 ∧ (2 : ℕ) ≠ 0 ∧
    NewAmount (.finite 3) 1 = NewAmount (.finite 3) 2 ∧
    NewAmount (.finite 3) 1 = .ok (round 3) :=
  ⟨by decide, by decide,
    newAmount_tokentype_zero_test.1 (.finite 3) 1 2 (by decide) (by decide),
    newAmount_tokentype_zero_test.2 3 1 (by decide)⟩

end Btcutil
